import Mathlib

/-!
Verification of the `paper2remarkable` HTML provider
(`paper2remarkable/providers/html.py`).

Python strings are embedded as `List Char` (a Python `str` is a sequence of
Unicode code points).  The external collaborators (HTTP fetcher, readability,
html2text, markdown, weasyprint) are modelled as oracle functions collected in
an `Env` record; the pure string manipulation done by the provider itself is
translated directly from the source.
-/

/-- Python strings as lists of Unicode code points. -/
abbrev Str := List Char

/-- Errors raised by collaborators (exception payloads). -/
abbrev Err := List Char

/-- `p` is a prefix of `s` (Python `s.startswith(p)` with pattern `p`). -/
def startsWithL : Str → Str → Bool
  | [], _ => true
  | _ :: _, [] => false
  | p :: ps, c :: cs => p == c && startsWithL ps cs

/-- `p` occurs as a contiguous substring of `s` (Python `p in s`). -/
def containsL (p : Str) : Str → Bool
  | [] => p.isEmpty
  | c :: cs => startsWithL p (c :: cs) || containsL p cs

/-- Fuel-indexed left-to-right non-overlapping replacement; with fuel
`s.length` this is exactly Python's `s.replace(p, r)` for nonempty `p`:
scan left to right, replace each occurrence, continue after the
replacement text. -/
def replaceFuel (p r : Str) : Nat → Str → Str
  | 0, s => s
  | _ + 1, [] => []
  | n + 1, c :: cs =>
    if startsWithL p (c :: cs) then
      r ++ replaceFuel p r n (List.drop p.length (c :: cs))
    else
      c :: replaceFuel p r n cs

/-- Python `s.replace(p, r)` (for nonempty pattern `p`). -/
def replaceL (p r s : Str) : Str :=
  replaceFuel p r s.length s

/-- The URL-rewriting step of `HTML.retrieve_pdf` (html.py lines 113-116):
first every occurrence of ` src="//` becomes ` src="https://`, then every
occurrence of ` src="/` becomes ` src="{base}/`. -/
def fixRelativeUrls (base_url html_article : Str) : Str :=
  let h1 := replaceL (" src=\"//".toList) (" src=\"https://".toList) html_article
  replaceL (" src=\"/".toList) (" src=\"".toList ++ base_url ++ "/".toList) h1

/-- Accumulator-based whitespace split: Python `s.split()` — splits on runs
of whitespace and drops empty fields.  `cur` holds the current word reversed. -/
def splitWsAux : Str → Str → List Str
  | [], cur => if cur.isEmpty then [] else [cur.reverse]
  | c :: cs, cur =>
    if c.isWhitespace then
      if cur.isEmpty then splitWsAux cs [] else cur.reverse :: splitWsAux cs []
    else
      splitWsAux cs (c :: cur)

/-- Join a list of words with single spaces: Python `" ".join(words)`. -/
def joinSpace : List Str → Str
  | [] => []
  | [w] => w
  | w :: ws => w ++ ' ' :: joinSpace ws

/-- Modelled from the spec: `clean_string` (imported from `..utils`, whose
source is not part of this module) "strips/normalizes whitespace and stray
punctuation"; modelled as whitespace normalization: split on whitespace runs
and re-join the words with single spaces (Python `" ".join(s.split())`). -/
def clean_string (s : Str) : Str :=
  joinSpace (splitWsAux s [])

/-- ASCII lowercase/uppercase pairs. -/
def lowerUpperTable : List (Char × Char) :=
  [('a', 'A'), ('b', 'B'), ('c', 'C'), ('d', 'D'), ('e', 'E'), ('f', 'F'),
   ('g', 'G'), ('h', 'H'), ('i', 'I'), ('j', 'J'), ('k', 'K'), ('l', 'L'),
   ('m', 'M'), ('n', 'N'), ('o', 'O'), ('p', 'P'), ('q', 'Q'), ('r', 'R'),
   ('s', 'S'), ('t', 'T'), ('u', 'U'), ('v', 'V'), ('w', 'W'), ('x', 'X'),
   ('y', 'Y'), ('z', 'Z')]

/-- Capitalize a single character (lookup in the case table). -/
def capChar (c : Char) : Char :=
  match lowerUpperTable.find? (fun q => q.fst == c) with
  | some q => q.snd
  | none => c

/-- Scan for `titlecase`: capitalize every character that follows a space
(or starts the string). -/
def titlecaseAux (prevIsSpace : Bool) : Str → Str
  | [] => []
  | c :: cs => (if prevIsSpace then capChar c else c) :: titlecaseAux (c == ' ') cs

/-- Modelled from the spec: the third-party `titlecase.titlecase` collaborator,
"convert to title-case" — capitalize the first letter of every
space-separated word. -/
def titlecase (s : Str) : Str :=
  titlecaseAux true s

/-- Python `s.strip("_")`: remove leading and trailing underscores. -/
def stripUnderscores (s : Str) : Str :=
  (((s.dropWhile (fun c => c == '_')).reverse).dropWhile (fun c => c == '_')).reverse

/-- Transliteration pairs: a non-ASCII character and its closest ASCII
equivalent. -/
def translitTable : List (Char × Str) :=
  [('é', ['e']), ('è', ['e']), ('á', ['a']), ('à', ['a']), ('ü', ['u']),
   ('ö', ['o']), ('ñ', ['n']), ('ç', ['c']), ('É', ['E']), ('—', ['-']),
   ('–', ['-']), ('’', ['\x27']), ('“', ['"']), ('”', ['"']),
   ('…', ['.', '.', '.'])]

/-- Modelled from the spec: one character of the third-party
`unidecode.unidecode` collaborator, "transliterate non-ASCII characters to
their closest ASCII equivalents" — ASCII characters are kept, non-ASCII
characters are replaced by their table entry (or a placeholder). -/
def translitChar (c : Char) : Str :=
  if c.toNat < 128 then [c]
  else
    match translitTable.find? (fun q => q.fst == c) with
    | some q => q.snd
    | none => ['?']

/-- Modelled from the spec: `unidecode.unidecode`, applied character by
character. -/
def unidecodeL : Str → Str
  | [] => []
  | c :: cs => translitChar c ++ unidecodeL cs

/-- The title-to-filename normalization of `HTMLInformer.get_filename`
(html.py lines 69-74): clean, titlecase, spaces to underscores, clean again,
strip underscores, append ".pdf", transliterate to ASCII. -/
def deriveFilename (title : Str) : Str :=
  let title1 := clean_string title
  let title2 := titlecase title1
  let title3 := replaceL (" ".toList) ("_".toList) title2
  let title4 := clean_string title3
  let name := stripUnderscores title4 ++ ".pdf".toList
  unidecodeL name

/-- `true` iff the string contains two adjacent whitespace characters. -/
def hasWsRun : Str → Bool
  | a :: b :: t => (a.isWhitespace && b.isWhitespace) || hasWsRun (b :: t)
  | _ => false

/-- `true` iff the first character is an underscore. -/
def headIsUnderscore : Str → Bool
  | c :: _ => c == '_'
  | [] => false

/-- `true` iff the last character is an underscore. -/
def lastIsUnderscore (s : Str) : Bool :=
  headIsUnderscore s.reverse

/-- ASCII test for a character. -/
def isAsciiChar (c : Char) : Bool :=
  c.toNat < 128

/-- Components of a parsed URL as returned by `urllib.parse.urlparse` /
`urllib.parse.urlsplit` (only the components the provider reads; a missing
component is the empty string, which is falsy in Python). -/
structure UrlParts where
  scheme : Str
  netloc : Str
  path : Str

/-- Oracles for the external collaborators of the provider.  Fallible
collaborators (network, parsing, rendering) return `Except`; an exception
raised inside a collaborator propagates out of the provider. -/
structure Env where
  /-- `utils.get_page_with_retry(url, return_text=True)`. -/
  get_page : Str → Except Err Str
  /-- `readability.Document(text).title()`. -/
  doc_title : Str → Except Err Str
  /-- `readability.Document(text).summary(html_partial=True)`. -/
  doc_summary : Str → Except Err Str
  /-- `html2text.HTML2Text().handle` with `wrap_links = False`. -/
  h2t_handle : Str → Except Err Str
  /-- `markdown.markdown(article)`. -/
  markdown : Str → Except Err Str
  /-- `urllib.parse.urlsplit` (used by `retrieve_pdf`). -/
  urlsplit : Str → UrlParts
  /-- `urllib.parse.urlparse` (used by `validate`). -/
  urlparse : Str → UrlParts
  /-- `utils.get_content_type_with_retry(url)`; `none` when the lookup
  yields no result. -/
  get_content_type : Str → Option Str
  /-- `weasyprint`: parse the HTML string, apply the fixed stylesheet and
  render a PDF (the byte content eventually written to the output path). -/
  write_pdf : Str → Except Err Str

/-- `HTML.validate` (html.py lines 128-137).  Returns the boolean result
paired with a flag recording whether the content-type lookup (the network
round trip) was performed. -/
def validate (env : Env) (src : Str) : Bool × Bool :=
  let parsed := env.urlparse src
  if parsed.scheme.isEmpty || parsed.netloc.isEmpty || parsed.path.isEmpty then
    (false, false)
  else
    match env.get_content_type src with
    | none => (false, true)
    | some ct => (startsWithL ("text/html".toList) ct, true)

/-- `my_fetcher` (html.py lines 51-56), parameterized by
`weasyprint.default_url_fetcher`. -/
def my_fetcher (fetch : Str → α) (url : Str) : α :=
  let url1 :=
    if startsWithL ("//".toList) url then
      "https:".toList ++ url
    else if startsWithL ("file:///".toList) url then
      "https:".toList ++ List.drop ("file:/".length) url
    else
      url
  fetch url1

/-- `HTMLInformer.get_filename` (html.py lines 63-76): fetch the page,
extract the title with readability, normalize it into a filename. -/
def get_filename (env : Env) (abs_url : Str) : Except Err Str :=
  match env.get_page abs_url with
  | .error e => .error e
  | .ok request_text =>
    match env.doc_title request_text with
    | .error e => .error e
    | .ok title => .ok (deriveFilename title)

/-- `HTML.get_abs_pdf_urls` (html.py lines 84-85). -/
def get_abs_pdf_urls (url : Str) : Str × Str :=
  (url, url)

/-- The fixed relative path of the debug side-channel file. -/
def debugHtmlPath : Str :=
  "./paper.html".toList

/-- Observable outcome of one `HTML.retrieve_pdf` run: every intermediate
value that was computed (in source order), the files written (path,
content — in write order), and whether the run raised. -/
structure Trace where
  request_text : Option Str := none
  title : Option Str := none
  raw_html : Option Str := none
  text : Option Str := none
  article : Option Str := none
  base_url : Option Str := none
  html_article : Option Str := none
  writes : List (Str × Str) := []
  outcome : Except Err Unit := .ok ()

/-- `HTML.retrieve_pdf` (html.py lines 87-126): fetch, extract title and
article with readability, convert to markdown-like text with html2text,
reassemble with the title as a level-1 heading, render back to HTML with
markdown, rewrite relative `src` URLs, optionally dump the HTML to
`./paper.html` when `debug` is set, and render the PDF to `filename`. -/
def retrieve_pdf (env : Env) (debug : Bool) (pdf_url filename : Str) : Trace :=
  match env.get_page pdf_url with
  | .error e => { outcome := .error e }
  | .ok request_text =>
    match env.doc_title request_text with
    | .error e => { request_text := some request_text, outcome := .error e }
    | .ok title =>
      match env.doc_summary request_text with
      | .error e =>
        { request_text := some request_text, title := some title,
          outcome := .error e }
      | .ok raw_html =>
        match env.h2t_handle raw_html with
        | .error e =>
          { request_text := some request_text, title := some title,
            raw_html := some raw_html, outcome := .error e }
        | .ok text =>
          let article := "# ".toList ++ title ++ "\n\n".toList ++ text
          let parts := env.urlsplit pdf_url
          let base_url := parts.scheme ++ "://".toList ++ parts.netloc
          match env.markdown article with
          | .error e =>
            { request_text := some request_text, title := some title,
              raw_html := some raw_html, text := some text,
              article := some article, base_url := some base_url,
              outcome := .error e }
          | .ok md_html =>
            let html_article := fixRelativeUrls base_url md_html
            let writes0 :=
              if debug then [(debugHtmlPath, html_article)] else []
            match env.write_pdf html_article with
            | .error e =>
              { request_text := some request_text, title := some title,
                raw_html := some raw_html, text := some text,
                article := some article, base_url := some base_url,
                html_article := some html_article, writes := writes0,
                outcome := .error e }
            | .ok pdf_bytes =>
              { request_text := some request_text, title := some title,
                raw_html := some raw_html, text := some text,
                article := some article, base_url := some base_url,
                html_article := some html_article,
                writes := writes0 ++ [(filename, pdf_bytes)],
                outcome := .ok () }

/-- A concrete environment (one possible behavior of the collaborators),
used to evaluate the theorems at concrete inputs. -/
def envV1 : Env where
  get_page := fun _ => .ok "page".toList
  doc_title := fun _ => .ok "A Title".toList
  doc_summary := fun _ => .ok "<p>body</p>".toList
  h2t_handle := fun _ => .ok "body".toList
  markdown := fun s => .ok s
  urlsplit := fun _ => { scheme := "https".toList, netloc := "e.com".toList, path := "/a".toList }
  urlparse := fun _ => { scheme := "https".toList, netloc := "e.com".toList, path := "/a".toList }
  get_content_type := fun _ => some ("text/html; charset=utf-8".toList)
  write_pdf := fun _ => .ok "%PDF".toList

/-- `envV1` with a failing PDF renderer. -/
def envB : Env :=
  { envV1 with write_pdf := fun _ => .error ("render failed".toList) }

/-- `envV1` with an empty extracted title. -/
def envE : Env :=
  { envV1 with doc_title := fun _ => .ok [] }

theorem replaceFuel_of_not_contains (p r : Str) :
    ∀ (n : Nat) (s : Str), s.length ≤ n → containsL p s = false →
      replaceFuel p r n s = s := by
  intro n
  induction n with
  | zero =>
    intro s _ _
    rfl
  | succ n ih =>
    intro s hn hc
    match s with
    | [] => rfl
    | c :: cs =>
      simp only [containsL, Bool.or_eq_false_iff] at hc
      simp only [replaceFuel, hc.1, Bool.false_eq_true, if_false]
      rw [ih cs (Nat.le_of_succ_le_succ (by simpa using hn)) hc.2]

theorem replaceL_of_not_contains (p r s : Str) (hc : containsL p s = false) :
    replaceL p r s = s :=
  replaceFuel_of_not_contains p r s.length s (Nat.le_refl _) hc

theorem startsWithL_append_drop :
    ∀ (p u : Str), startsWithL p u = true → p ++ List.drop p.length u = u := by
  intro p
  induction p with
  | nil =>
    intro u _
    simp
  | cons a ps ih =>
    intro u h
    match u with
    | [] => simp [startsWithL] at h
    | c :: cs =>
      simp only [startsWithL, Bool.and_eq_true, beq_iff_eq] at h
      have := ih cs h.2
      simp only [List.length_cons, List.cons_append, List.drop_succ_cons]
      rw [h.1, this]

/-- C7: `get_abs_pdf_urls` returns the input URL in both positions. -/
theorem claim_C7_get_abs_pdf_urls (url : Str) : get_abs_pdf_urls url = (url, url) :=
  rfl

theorem drop_file_scheme (r : Str) :
    List.drop 6 ("file:///".toList ++ r) = '/' :: '/' :: r := by
  have h : "file:///".toList = ['f', 'i', 'l', 'e', ':', '/', '/', '/'] := rfl
  rw [h]
  rfl

/-- C3: the custom resource fetcher prepends `https:` to protocol-relative
URLs, rewrites a `file:///` prefix to `https://` keeping the rest of the
string, and passes every other URL through unchanged to the default
fetcher. -/
theorem claim_C3_my_fetcher {α : Type} (fetch : Str → α) (url : Str) :
    (startsWithL ("//".toList) url = true →
      my_fetcher fetch url = fetch ("https:".toList ++ url)) ∧
    (startsWithL ("//".toList) url = false →
      startsWithL ("file:///".toList) url = true →
      my_fetcher fetch url = fetch ("https://".toList ++ List.drop 8 url)) ∧
    (startsWithL ("//".toList) url = false →
      startsWithL ("file:///".toList) url = false →
      my_fetcher fetch url = fetch url) := by
  refine ⟨?_, ?_, ?_⟩
  · intro h1
    have h1' : startsWithL ['/', '/'] url = true := h1
    simp [my_fetcher, h1']
  · intro h1 h2
    have h1' : startsWithL ['/', '/'] url = false := h1
    have h2' : startsWithL ['f', 'i', 'l', 'e', ':', '/', '/', '/'] url = true := h2
    have hdec := startsWithL_append_drop ("file:///".toList) url h2
    have hlen : ("file:///".toList).length = 8 := rfl
    rw [hlen] at hdec
    simp only [my_fetcher, h1', Bool.false_eq_true, if_false, h2', if_true]
    congr 1
    conv_lhs => rw [← hdec]
    have h6 : "file:/".length = 6 := rfl
    rw [h6, drop_file_scheme]
    rfl
  · intro h1 h2
    have h1' : startsWithL ['/', '/'] url = false := h1
    have h2' : startsWithL ['f', 'i', 'l', 'e', ':', '/', '/', '/'] url = false := h2
    simp [my_fetcher, h1', h2']

/-- C3 witness: `file:///etc/passwd` is fetched as `https://etc/passwd`. -/
theorem claim_C3_my_fetcher_witness :
    my_fetcher (fun s => s) ("file:///etc/passwd".toList) = "https://etc/passwd".toList := by
  have h := (claim_C3_my_fetcher (fun s => s) ("file:///etc/passwd".toList)).2.1
    (by decide) (by decide)
  exact h.trans (by decide)

/-- C1: `validate` returns false without the content-type lookup when the
parsed URL is missing the scheme, network-location or path; with all three
present it returns false when the lookup yields `none`, and otherwise
returns true iff the content type starts with `text/html` (the lookup
being performed in both of those cases). -/
theorem claim_C1_validate (env : Env) (src : Str) :
    (((env.urlparse src).scheme.isEmpty || (env.urlparse src).netloc.isEmpty ||
        (env.urlparse src).path.isEmpty) = true →
      validate env src = (false, false)) ∧
    (((env.urlparse src).scheme.isEmpty || (env.urlparse src).netloc.isEmpty ||
        (env.urlparse src).path.isEmpty) = false →
      env.get_content_type src = none →
      validate env src = (false, true)) ∧
    (∀ ct : Str,
      ((env.urlparse src).scheme.isEmpty || (env.urlparse src).netloc.isEmpty ||
        (env.urlparse src).path.isEmpty) = false →
      env.get_content_type src = some ct →
      validate env src = (startsWithL ("text/html".toList) ct, true)) := by
  refine ⟨?_, ?_, ?_⟩
  · intro h
    simp [validate, h]
  · intro h hct
    simp [validate, h, hct]
  · intro ct h hct
    simp [validate, h, hct]

/-- C1 witness: a fully-formed URL whose content type is
`text/html; charset=utf-8` validates, with the lookup performed. -/
theorem claim_C1_validate_witness :
    validate envV1 ("https://e.com/a".toList) = (true, true) := by
  have h := (claim_C1_validate envV1 ("https://e.com/a".toList)).2.2
    ("text/html; charset=utf-8".toList) (by decide) rfl
  exact h.trans (by decide)

/-- C2: the URL rewrite replaces ` src="//` by ` src="https://` first and
` src="/` by ` src="{base}/` second; a protocol-relative URL is rewritten to
a single `https://` prefix (not double-prefixed), a root-relative URL gets
the base prefix, an absolute URL is unchanged, and a string containing
neither pattern is left entirely unchanged. -/
theorem claim_C2_fix_relative_urls :
    (∀ base_url html : Str,
      fixRelativeUrls base_url html =
        replaceL (" src=\"/".toList) (" src=\"".toList ++ base_url ++ "/".toList)
          (replaceL (" src=\"//".toList) (" src=\"https://".toList) html)) ∧
    fixRelativeUrls ("https://site.com".toList)
        (" src=\"//cdn.example.com/img.png\"".toList) =
      " src=\"https://cdn.example.com/img.png\"".toList ∧
    fixRelativeUrls ("https://site.com".toList)
        (" src=\"/local/img.png\"".toList) =
      " src=\"https://site.com/local/img.png\"".toList ∧
    fixRelativeUrls ("https://site.com".toList)
        (" src=\"https://other.org/i.png\"".toList) =
      " src=\"https://other.org/i.png\"".toList ∧
    (∀ base_url html : Str,
      containsL (" src=\"//".toList) html = false →
      containsL (" src=\"/".toList) html = false →
      fixRelativeUrls base_url html = html) := by
  refine ⟨fun _ _ => rfl, by decide, by decide, by decide, ?_⟩
  intro base_url html h1 h2
  unfold fixRelativeUrls
  rw [replaceL_of_not_contains _ _ _ h1, replaceL_of_not_contains _ _ _ h2]

/-- C2 witness: a string with no `src` attribute is unchanged. -/
theorem claim_C2_fix_relative_urls_witness :
    fixRelativeUrls ("https://w.org".toList) ("<p>plain</p>".toList) =
      "<p>plain</p>".toList :=
  claim_C2_fix_relative_urls.2.2.2.2 _ _ (by decide) (by decide)

/-- C6: the article string handed to the markdown renderer is exactly
`"# {title}\n\n{text}"`. -/
theorem claim_C6_article (env : Env) (debug : Bool) (pdf_url filename : Str)
    (rt ti rh tx : Str)
    (h1 : env.get_page pdf_url = .ok rt)
    (h2 : env.doc_title rt = .ok ti)
    (h3 : env.doc_summary rt = .ok rh)
    (h4 : env.h2t_handle rh = .ok tx) :
    (retrieve_pdf env debug pdf_url filename).article =
      some ("# ".toList ++ ti ++ "\n\n".toList ++ tx) := by
  simp only [retrieve_pdf, h1, h2, h3, h4]
  split
  · rfl
  · split
    · rfl
    · rfl

/-- C6 witness. -/
theorem claim_C6_article_witness :
    (retrieve_pdf envV1 false ("https://e.com/a".toList) ("out.pdf".toList)).article =
      some ("# ".toList ++ "A Title".toList ++ "\n\n".toList ++ "body".toList) :=
  claim_C6_article envV1 false _ _ _ _ _ _ rfl rfl rfl rfl

theorem retrieve_pdf_cases (env : Env) (debug : Bool) (u f : Str) :
    ((retrieve_pdf env debug u f).writes = [] ∧
      (retrieve_pdf env debug u f).html_article = none ∧
      ∃ e, (retrieve_pdf env debug u f).outcome = .error e) ∨
    (debug = false ∧ (retrieve_pdf env debug u f).writes = [] ∧
      ∃ h e, (retrieve_pdf env debug u f).html_article = some h ∧
        (retrieve_pdf env debug u f).outcome = .error e) ∨
    (debug = true ∧
      ∃ h e, (retrieve_pdf env debug u f).html_article = some h ∧
        (retrieve_pdf env debug u f).outcome = .error e ∧
        (retrieve_pdf env debug u f).writes = [(debugHtmlPath, h)]) ∨
    ((retrieve_pdf env debug u f).outcome = .ok () ∧
      ∃ h p, (retrieve_pdf env debug u f).html_article = some h ∧
        (retrieve_pdf env debug u f).writes =
          (if debug then [(debugHtmlPath, h)] else []) ++ [(f, p)]) := by
  simp only [retrieve_pdf]
  split
  · left; exact ⟨rfl, rfl, _, rfl⟩
  · split
    · left; exact ⟨rfl, rfl, _, rfl⟩
    · split
      · left; exact ⟨rfl, rfl, _, rfl⟩
      · split
        · left; exact ⟨rfl, rfl, _, rfl⟩
        · split
          · left; exact ⟨rfl, rfl, _, rfl⟩
          · split
            · cases debug with
              | false => right; left; exact ⟨rfl, rfl, _, _, rfl, rfl⟩
              | true => right; right; left; exact ⟨rfl, _, _, rfl, rfl, rfl⟩
            · right; right; right
              exact ⟨rfl, _, _, rfl, rfl⟩

/-- C8 (amended): when a stage of `retrieve_pdf` fails, the error propagates
(the run's outcome is that error) and no file is written at the output path,
provided the output path does not alias the debug file `./paper.html` while
the debug flag is set. -/
theorem claim_C8_no_output_on_failure (env : Env) (debug : Bool)
    (pdf_url filename : Str) (e : Err)
    (herr : (retrieve_pdf env debug pdf_url filename).outcome = .error e)
    (hsafe : debug = false ∨ filename ≠ debugHtmlPath) :
    filename ∉ (retrieve_pdf env debug pdf_url filename).writes.map Prod.fst := by
  rcases retrieve_pdf_cases env debug pdf_url filename with
    ⟨hw, _, _⟩ | ⟨_, hw, _⟩ | ⟨hdbg, h, e', _, _, hw⟩ | ⟨hok, _⟩
  · rw [hw]; simp
  · rw [hw]; simp
  · rw [hw]
    rcases hsafe with hs | hs
    · rw [hs] at hdbg; exact absurd hdbg (by simp)
    · simp [hs]
  · rw [hok] at herr; exact absurd herr (by simp)

/-- C8 witness: with the debug flag off and a failing renderer, nothing is
written at the output path. -/
theorem claim_C8_no_output_on_failure_witness :
    ("out.pdf".toList) ∉
      (retrieve_pdf envB false ("https://e.com/a".toList) ("out.pdf".toList)).writes.map Prod.fst :=
  claim_C8_no_output_on_failure envB false ("https://e.com/a".toList) ("out.pdf".toList)
    ("render failed".toList) rfl (Or.inl rfl)

/-- C8 counterexample to the claim as stated: with the debug flag set and the
output path equal to `./paper.html`, a failing render still leaves the debug
HTML written at the output path. -/
theorem claim_C8_counterexample :
    (∃ e, (retrieve_pdf envB true ("https://e.com/a".toList) debugHtmlPath).outcome = .error e) ∧
    debugHtmlPath ∈
      (retrieve_pdf envB true ("https://e.com/a".toList) debugHtmlPath).writes.map Prod.fst := by
  refine ⟨⟨"render failed".toList, rfl⟩, ?_⟩
  decide

/-- C9: when the debug flag is off the only possible write is the PDF at the
caller-specified path; and on runs that reach the rewrite step (so the
intermediate HTML exists) the pair (./paper.html, intermediate HTML) is
written iff the debug flag is set (for an output path distinct from the
debug path). -/
theorem claim_C9_debug_write (env : Env) (debug : Bool) (pdf_url filename : Str) :
    (debug = false →
      (retrieve_pdf env debug pdf_url filename).writes = [] ∨
      ∃ pdf_bytes, (retrieve_pdf env debug pdf_url filename).writes = [(filename, pdf_bytes)]) ∧
    (∀ h : Str, (retrieve_pdf env debug pdf_url filename).html_article = some h →
      filename ≠ debugHtmlPath →
      ((debugHtmlPath, h) ∈ (retrieve_pdf env debug pdf_url filename).writes ↔ debug = true)) := by
  rcases retrieve_pdf_cases env debug pdf_url filename with
    ⟨hw, hha, _⟩ | ⟨hdbg, hw, h', e', hha, _⟩ | ⟨hdbg, h', e', hha, _, hw⟩ |
    ⟨hok, h', p', hha, hw⟩
  · constructor
    · intro _; left; exact hw
    · intro h hsome _
      rw [hha] at hsome
      exact absurd hsome (by simp)
  · constructor
    · intro _; left; exact hw
    · intro h hsome hne
      rw [hw, hdbg]
      simp
  · constructor
    · intro hf; rw [hf] at hdbg; exact absurd hdbg (by simp)
    · intro h hsome hne
      rw [hha] at hsome
      have hh : h' = h := Option.some.inj hsome
      subst hh
      rw [hw, hdbg]
      simp
  · constructor
    · intro hdbg0
      right
      refine ⟨p', ?_⟩
      rw [hw, hdbg0]
      simp
    · intro h hsome hne
      rw [hha] at hsome
      have hh : h' = h := Option.some.inj hsome
      subst hh
      rw [hw]
      cases debug with
      | false =>
        simp only [Bool.false_eq_true, if_false, List.nil_append]
        constructor
        · intro hmem
          have := List.mem_singleton.mp hmem
          exact absurd (congrArg Prod.fst this) (Ne.symm hne)
        · intro hf; exact absurd hf (by simp)
      | true =>
        simp

/-- C9 witness: on a successful debug run, the intermediate HTML is written
to `./paper.html`. -/
theorem claim_C9_debug_write_witness :
    (debugHtmlPath,
      fixRelativeUrls ("https://e.com".toList) ("# A Title\n\nbody".toList)) ∈
      (retrieve_pdf envV1 true ("https://e.com/a".toList) ("out.pdf".toList)).writes :=
  ((claim_C9_debug_write envV1 true ("https://e.com/a".toList) ("out.pdf".toList)).2
    _ rfl (by decide)).mpr rfl

/-- C10: `get_filename` and `retrieve_pdf` extract the title from the fetched
page text by the same call; when the fetch returns text `t` with extracted
title `ti`, the filename is the normalization of `ti` and the heading title
recorded by `retrieve_pdf` is the same `ti`. -/
theorem claim_C10_shared_title (env : Env) (debug : Bool) (url filename : Str)
    (t ti : Str) (h1 : env.get_page url = .ok t) (h2 : env.doc_title t = .ok ti) :
    get_filename env url = .ok (deriveFilename ti) ∧
    (retrieve_pdf env debug url filename).title = some ti := by
  constructor
  · simp [get_filename, h1, h2]
  · simp only [retrieve_pdf, h1, h2]
    repeat' split
    all_goals rfl

/-- C10 witness. -/
theorem claim_C10_shared_title_witness :
    get_filename envV1 ("https://e.com/a".toList) = .ok (deriveFilename ("A Title".toList)) ∧
    (retrieve_pdf envV1 false ("https://e.com/a".toList) ("out.pdf".toList)).title =
      some ("A Title".toList) :=
  claim_C10_shared_title envV1 false ("https://e.com/a".toList) ("out.pdf".toList)
    ("page".toList) ("A Title".toList) rfl rfl

/-- C5: the filename derivation is total — every title (malformed or not)
yields a name — the empty title yields exactly `.pdf`, and `get_filename`
returns `.pdf` whenever extraction yields the empty title. -/
theorem claim_C5_filename_total :
    (∀ title : Str, ∃ name, deriveFilename title = name) ∧
    deriveFilename [] = ".pdf".toList ∧
    (∀ (env : Env) (url t : Str), env.get_page url = .ok t →
      env.doc_title t = .ok [] → get_filename env url = .ok (".pdf".toList)) := by
  refine ⟨fun t => ⟨_, rfl⟩, by decide, ?_⟩
  intro env url t h1 h2
  have hd : deriveFilename [] = ".pdf".toList := by decide
  simp [get_filename, h1, h2, hd]

/-- C5 witness: an environment whose extractor returns an empty title. -/
theorem claim_C5_filename_total_witness :
    get_filename envE ("https://e.com/a".toList) = .ok (".pdf".toList) :=
  claim_C5_filename_total.2.2 envE ("https://e.com/a".toList) ("page".toList) rfl rfl

theorem mem_joinSpace :
    ∀ (L : List Str) (c : Char), c ∈ joinSpace L → c = ' ' ∨ ∃ w, w ∈ L ∧ c ∈ w := by
  intro L
  induction L with
  | nil =>
    intro c h
    exact absurd h (by simp [joinSpace])
  | cons w ws ih =>
    intro c h
    cases ws with
    | nil =>
      exact Or.inr ⟨w, by simp, by simpa [joinSpace] using h⟩
    | cons v vs =>
      have hj : joinSpace (w :: v :: vs) = w ++ ' ' :: joinSpace (v :: vs) := rfl
      rw [hj] at h
      rcases List.mem_append.mp h with hw | hr
      · exact Or.inr ⟨w, by simp, hw⟩
      · rcases List.mem_cons.mp hr with hc | hjj
        · exact Or.inl hc
        · rcases ih c hjj with h' | ⟨u, hu, hcu⟩
          · exact Or.inl h'
          · exact Or.inr ⟨u, List.mem_cons_of_mem _ hu, hcu⟩

theorem splitWsAux_no_ws :
    ∀ (s cur : Str), (∀ c ∈ cur, c.isWhitespace = false) →
      ∀ w ∈ splitWsAux s cur, ∀ c ∈ w, c.isWhitespace = false := by
  intro s
  induction s with
  | nil =>
    intro cur hcur w hw c hc
    cases hce : cur.isEmpty with
    | true => simp [splitWsAux, hce] at hw
    | false =>
      simp only [splitWsAux, hce, Bool.false_eq_true, if_false, List.mem_singleton] at hw
      subst hw
      exact hcur c (List.mem_reverse.mp hc)
  | cons a as ih =>
    intro cur hcur w hw c hc
    cases hws : a.isWhitespace with
    | true =>
      simp only [splitWsAux, hws, if_true] at hw
      cases hce : cur.isEmpty with
      | true =>
        rw [hce] at hw
        simp only [if_true] at hw
        exact ih [] (by simp) w hw c hc
      | false =>
        rw [hce] at hw
        simp only [Bool.false_eq_true, if_false] at hw
        rcases List.mem_cons.mp hw with h1 | h2
        · subst h1
          exact hcur c (List.mem_reverse.mp hc)
        · exact ih [] (by simp) w h2 c hc
    | false =>
      simp only [splitWsAux, hws, Bool.false_eq_true, if_false] at hw
      refine ih (a :: cur) ?_ w hw c hc
      intro d hd
      rcases List.mem_cons.mp hd with h1 | h2
      · subst h1; exact hws
      · exact hcur d h2

theorem clean_ws_is_space (s : Str) (c : Char) (hc : c ∈ clean_string s)
    (hw : c.isWhitespace = true) : c = ' ' := by
  rcases mem_joinSpace _ c hc with h | ⟨w, hwmem, hcw⟩
  · exact h
  · have := splitWsAux_no_ws s [] (by simp) w hwmem c hcw
    exact absurd hw (by simp [this])

theorem splitWsAux_all_nonws :
    ∀ (s cur : Str), (∀ c ∈ s, c.isWhitespace = false) → (cur ≠ [] ∨ s ≠ []) →
      splitWsAux s cur = [cur.reverse ++ s] := by
  intro s
  induction s with
  | nil =>
    intro cur _ hne
    rcases hne with h1 | h2
    · cases cur with
      | nil => exact absurd rfl h1
      | cons d ds => simp [splitWsAux]
    · exact absurd rfl h2
  | cons a as ih =>
    intro cur h _
    have ha : a.isWhitespace = false := h a (by simp)
    simp only [splitWsAux, ha, Bool.false_eq_true, if_false]
    rw [ih (a :: cur) (fun c hc => h c (List.mem_cons_of_mem _ hc)) (Or.inl (by simp))]
    simp

theorem clean_string_of_no_ws (s : Str) (h : ∀ c ∈ s, c.isWhitespace = false) :
    clean_string s = s := by
  cases s with
  | nil => rfl
  | cons a as =>
    unfold clean_string
    rw [splitWsAux_all_nonws (a :: as) [] h (Or.inr (by simp))]
    simp [joinSpace]

theorem mem_replaceFuel (p r : Str) :
    ∀ (n : Nat) (s : Str) (a : Char), a ∈ replaceFuel p r n s → a ∈ r ∨ a ∈ s := by
  intro n
  induction n with
  | zero =>
    intro s a h
    exact Or.inr h
  | succ n ih =>
    intro s a h
    match s with
    | [] => exact absurd h (by simp [replaceFuel])
    | c :: cs =>
      cases hs : startsWithL p (c :: cs) with
      | true =>
        simp only [replaceFuel, hs, if_true] at h
        rcases List.mem_append.mp h with h1 | h2
        · exact Or.inl h1
        · rcases ih _ a h2 with h3 | h4
          · exact Or.inl h3
          · exact Or.inr (List.drop_subset _ _ h4)
      | false =>
        simp only [replaceFuel, hs, Bool.false_eq_true, if_false] at h
        rcases List.mem_cons.mp h with h1 | h2
        · exact Or.inr (by simp [h1])
        · rcases ih cs a h2 with h3 | h4
          · exact Or.inl h3
          · exact Or.inr (List.mem_cons_of_mem _ h4)

theorem mem_replaceL (p r s : Str) (a : Char) (h : a ∈ replaceL p r s) : a ∈ r ∨ a ∈ s :=
  mem_replaceFuel p r s.length s a h

theorem replaceFuel_single_not_mem (x : Char) (r : Str) (hx : x ∉ r) :
    ∀ (n : Nat) (s : Str), s.length ≤ n → x ∉ replaceFuel [x] r n s := by
  intro n
  induction n with
  | zero =>
    intro s hn
    have hs : s = [] := List.length_eq_zero.mp (Nat.le_zero.mp hn)
    subst hs
    simp [replaceFuel]
  | succ n ih =>
    intro s hn
    match s with
    | [] => simp [replaceFuel]
    | c :: cs =>
      by_cases hxc : x = c
      · subst hxc
        have hsw : startsWithL [x] (x :: cs) = true := by simp [startsWithL]
        simp only [replaceFuel, hsw, if_true]
        intro hmem
        rcases List.mem_append.mp hmem with h1 | h2
        · exact hx h1
        · have hdrop : List.drop ([x] : Str).length (x :: cs) = cs := rfl
          rw [hdrop] at h2
          exact ih cs (Nat.le_of_succ_le_succ hn) h2
      · have hsw : startsWithL [x] (c :: cs) = false := by simp [startsWithL, hxc]
        simp only [replaceFuel, hsw, Bool.false_eq_true, if_false]
        intro hmem
        rcases List.mem_cons.mp hmem with h1 | h2
        · exact hxc h1
        · exact ih cs (Nat.le_of_succ_le_succ hn) h2

theorem replaceL_single_not_mem (x : Char) (r s : Str) (hx : x ∉ r) :
    x ∉ replaceL [x] r s :=
  replaceFuel_single_not_mem x r hx s.length s (Nat.le_refl _)

theorem mem_titlecaseAux :
    ∀ (s : Str) (b : Bool) (a : Char), a ∈ titlecaseAux b s →
      ∃ c, c ∈ s ∧ (a = c ∨ a = capChar c) := by
  intro s
  induction s with
  | nil =>
    intro b a h
    exact absurd h (by simp [titlecaseAux])
  | cons c cs ih =>
    intro b a h
    simp only [titlecaseAux] at h
    rcases List.mem_cons.mp h with h1 | h2
    · cases b with
      | true => exact ⟨c, by simp, Or.inr (by simpa using h1)⟩
      | false => exact ⟨c, by simp, Or.inl (by simpa using h1)⟩
    · rcases ih (c == ' ') a h2 with ⟨d, hd, hor⟩
      exact ⟨d, List.mem_cons_of_mem _ hd, hor⟩

theorem capChar_isWhitespace (c : Char) : (capChar c).isWhitespace = c.isWhitespace := by
  unfold capChar
  cases hf : lowerUpperTable.find? (fun q => q.fst == c) with
  | none => rfl
  | some q =>
    have hq : q ∈ lowerUpperTable := List.mem_of_find?_eq_some hf
    have hqc := List.find?_some hf
    have hc : q.fst = c := by simpa using hqc
    have hall : ∀ p ∈ lowerUpperTable,
        (p.snd).isWhitespace = false ∧ (p.fst).isWhitespace = false := by decide
    rw [(hall q hq).1, ← hc, (hall q hq).2]

theorem mem_translitChar_ascii (c d : Char) (hd : d ∈ translitChar c) : d.toNat < 128 := by
  unfold translitChar at hd
  split at hd
  next hc =>
    have hdc : d = c := by simpa using hd
    subst hdc
    assumption
  next hc =>
    split at hd
    next q hf =>
      have hq : q ∈ translitTable := List.mem_of_find?_eq_some hf
      have hall : ∀ p ∈ translitTable, ∀ e ∈ p.snd, e.toNat < 128 := by decide
      exact hall q hq d hd
    next hf =>
      have hdq : d = '?' := by simpa using hd
      subst hdq
      decide

theorem translitChar_of_ascii (c : Char) (hc : c.toNat < 128) : translitChar c = [c] := by
  simp [translitChar, hc]

theorem translitChar_ne_nil (c : Char) : translitChar c ≠ [] := by
  unfold translitChar
  split
  · simp
  · split
    next q hf =>
      have hq : q ∈ translitTable := List.mem_of_find?_eq_some hf
      have hall : ∀ p ∈ translitTable, p.snd ≠ [] := by decide
      exact hall q hq
    next hf => simp

theorem mem_translitChar_no_ws (c d : Char) (hc : c.isWhitespace = false)
    (hd : d ∈ translitChar c) : d.isWhitespace = false := by
  unfold translitChar at hd
  split at hd
  next hac =>
    have hdc : d = c := by simpa using hd
    subst hdc
    exact hc
  next hac =>
    split at hd
    next q hf =>
      have hq : q ∈ translitTable := List.mem_of_find?_eq_some hf
      have hall : ∀ p ∈ translitTable, ∀ e ∈ p.snd, e.isWhitespace = false := by decide
      exact hall q hq d hd
    next hf =>
      have hdq : d = '?' := by simpa using hd
      subst hdq
      decide

theorem translitChar_head_ne (c : Char) (hc : (c == '_') = false) :
    headIsUnderscore (translitChar c) = false := by
  unfold translitChar
  split
  next hac => simpa [headIsUnderscore] using hc
  next hac =>
    split
    next q hf =>
      have hq : q ∈ translitTable := List.mem_of_find?_eq_some hf
      have hall : ∀ p ∈ translitTable, headIsUnderscore p.snd = false := by decide
      exact hall q hq
    next hf => decide

theorem unidecodeL_append : ∀ (a b : Str), unidecodeL (a ++ b) = unidecodeL a ++ unidecodeL b := by
  intro a b
  induction a with
  | nil => simp [unidecodeL]
  | cons c cs ih => simp [unidecodeL, ih, List.append_assoc]

theorem mem_unidecodeL : ∀ (s : Str) (d : Char), d ∈ unidecodeL s → ∃ c, c ∈ s ∧ d ∈ translitChar c := by
  intro s
  induction s with
  | nil =>
    intro d h
    exact absurd h (by simp [unidecodeL])
  | cons c cs ih =>
    intro d h
    simp only [unidecodeL] at h
    rcases List.mem_append.mp h with h1 | h2
    · exact ⟨c, by simp, h1⟩
    · rcases ih d h2 with ⟨e, he, hde⟩
      exact ⟨e, List.mem_cons_of_mem _ he, hde⟩

theorem unidecodeL_of_ascii : ∀ (s : Str), (∀ c ∈ s, c.toNat < 128) → unidecodeL s = s := by
  intro s
  induction s with
  | nil => intro _; rfl
  | cons c cs ih =>
    intro h
    have hc : c.toNat < 128 := h c (by simp)
    simp only [unidecodeL, translitChar_of_ascii c hc]
    rw [ih (fun d hd => h d (List.mem_cons_of_mem _ hd))]
    rfl

theorem hasWsRun_eq_false_of_no_ws :
    ∀ (s : Str), (∀ c ∈ s, c.isWhitespace = false) → hasWsRun s = false := by
  intro s
  induction s with
  | nil => intro _; rfl
  | cons a as ih =>
    intro h
    cases as with
    | nil => rfl
    | cons b bs =>
      have ha : a.isWhitespace = false := h a (by simp)
      have hr : hasWsRun (a :: b :: bs) =
          ((a.isWhitespace && b.isWhitespace) || hasWsRun (b :: bs)) := rfl
      rw [hr, ha]
      simp only [Bool.false_and, Bool.false_or]
      exact ih (fun c hc => h c (List.mem_cons_of_mem _ hc))

theorem head_dropWhile_eq_false (p : Char → Bool) :
    ∀ (l : Str) (c : Char) (t : Str), List.dropWhile p l = c :: t → p c = false := by
  intro l
  induction l with
  | nil =>
    intro c t h
    exact absurd h (by simp)
  | cons a as ih =>
    intro c t h
    cases hp : p a with
    | true =>
      rw [List.dropWhile_cons, hp] at h
      simp only [if_true] at h
      exact ih c t h
    | false =>
      rw [List.dropWhile_cons, hp] at h
      simp only [Bool.false_eq_true, if_false] at h
      rw [← (List.cons.injEq a as c t).mp h |>.1]
      exact hp

theorem stripUnderscores_head (s : Str) (c : Char) (t : Str)
    (h : stripUnderscores s = c :: t) : (c == '_') = false := by
  have hsuf : List.dropWhile (fun x => x == '_')
      (List.dropWhile (fun x => x == '_') s).reverse <:+
      (List.dropWhile (fun x => x == '_') s).reverse :=
    List.dropWhile_suffix _
  have hpre : stripUnderscores s <+: List.dropWhile (fun x => x == '_') s := by
    refine List.reverse_suffix.mp ?_
    simpa [stripUnderscores] using hsuf
  rcases hpre with ⟨k, hk⟩
  rw [h] at hk
  exact head_dropWhile_eq_false _ s c (t ++ k) (by rw [← hk]; simp)

theorem mem_stripUnderscores (s : Str) (c : Char) (hc : c ∈ stripUnderscores s) : c ∈ s := by
  unfold stripUnderscores at hc
  rw [List.mem_reverse] at hc
  have h1 := (List.dropWhile_suffix (fun x => x == '_')).subset hc
  rw [List.mem_reverse] at h1
  exact (List.dropWhile_suffix (fun x => x == '_')).subset h1

theorem deriveFilename_pre_no_ws (title : Str) :
    ∀ c ∈ stripUnderscores (clean_string (replaceL (" ".toList) ("_".toList)
        (titlecase (clean_string title)))) ++ ".pdf".toList,
      c.isWhitespace = false := by
  intro c hc
  rcases List.mem_append.mp hc with h | h
  · have ht3 : ∀ a ∈ replaceL (" ".toList) ("_".toList) (titlecase (clean_string title)),
        a.isWhitespace = false := by
      intro a ha
      by_contra hwsn
      have hws : a.isWhitespace = true := by simpa using hwsn
      have hnotsp : (' ' : Char) ∉ replaceL (" ".toList) ("_".toList)
          (titlecase (clean_string title)) := by
        have h1 : (" ".toList : Str) = [' '] := rfl
        rw [h1]
        exact replaceL_single_not_mem ' ' ("_".toList) _ (by decide)
      have hasp : a = ' ' := by
        rcases mem_replaceL _ _ _ a ha with h1 | h2
        · have ha' : a = '_' := by simpa using h1
          rw [ha'] at hws
          exact absurd hws (by decide)
        · rcases mem_titlecaseAux _ true a h2 with ⟨d, hd, hor⟩
          rcases hor with h3 | h3
          · have hdws : d.isWhitespace = true := by rw [← h3]; exact hws
            rw [h3]
            exact clean_ws_is_space _ d hd hdws
          · have hdws : d.isWhitespace = true := by
              rw [← capChar_isWhitespace d, ← h3]
              exact hws
            have hd' : d = ' ' := clean_ws_is_space _ d hd hdws
            rw [h3, hd']
            decide
      rw [hasp] at ha
      exact hnotsp ha
    have hcl : clean_string (replaceL (" ".toList) ("_".toList) (titlecase (clean_string title)))
        = replaceL (" ".toList) ("_".toList) (titlecase (clean_string title)) :=
      clean_string_of_no_ws _ ht3
    have h4 := mem_stripUnderscores _ c h
    rw [hcl] at h4
    exact ht3 c h4
  · have hp : ∀ c ∈ (".pdf".toList : Str), c.isWhitespace = false := by decide
    exact hp c h

/-- C4: every filename produced by the normalization contains no runs of raw
whitespace, no leading or trailing underscore and no non-ASCII character,
ends in ".pdf", and is computed by the steps clean, titlecase, spaces to
underscores, clean, strip underscores, append ".pdf", transliterate —
in that order. -/
theorem claim_C4_filename_shape (title : Str) :
    hasWsRun (deriveFilename title) = false ∧
    headIsUnderscore (deriveFilename title) = false ∧
    lastIsUnderscore (deriveFilename title) = false ∧
    (deriveFilename title).all isAsciiChar = true ∧
    ".pdf".toList <:+ deriveFilename title ∧
    deriveFilename title =
      unidecodeL (stripUnderscores (clean_string (replaceL (" ".toList) ("_".toList)
        (titlecase (clean_string title)))) ++ ".pdf".toList) := by
  have hpre := deriveFilename_pre_no_ws title
  have hdef : deriveFilename title =
      unidecodeL (stripUnderscores (clean_string (replaceL (" ".toList) ("_".toList)
        (titlecase (clean_string title)))) ++ ".pdf".toList) := rfl
  refine ⟨?_, ?_, ?_, ?_, ?_, hdef⟩
  · rw [hdef]
    apply hasWsRun_eq_false_of_no_ws
    intro d hd
    rcases mem_unidecodeL _ d hd with ⟨c, hcmem, hdc⟩
    exact mem_translitChar_no_ws c d (hpre c hcmem) hdc
  · rw [hdef]
    cases hstr : stripUnderscores (clean_string (replaceL (" ".toList) ("_".toList)
        (titlecase (clean_string title)))) with
    | nil => decide
    | cons c0 rest =>
      have hc0 : (c0 == '_') = false := stripUnderscores_head _ c0 rest hstr
      have hu : unidecodeL ((c0 :: rest) ++ ".pdf".toList) =
          translitChar c0 ++ unidecodeL (rest ++ ".pdf".toList) := rfl
      rw [hu]
      have hne := translitChar_ne_nil c0
      have hh := translitChar_head_ne c0 hc0
      cases hx : translitChar c0 with
      | nil => exact absurd hx hne
      | cons d ds =>
        rw [hx] at hh
        simpa [headIsUnderscore] using hh
  · rw [hdef, unidecodeL_append]
    have hpdf : unidecodeL (".pdf".toList) = ".pdf".toList := by decide
    rw [hpdf]
    unfold lastIsUnderscore
    rw [List.reverse_append]
    have hrev : (".pdf".toList : Str).reverse = ['f', 'd', 'p', '.'] := rfl
    rw [hrev]
    rfl
  · rw [hdef, List.all_eq_true]
    intro d hd
    have hda := mem_unidecodeL _ d hd
    rcases hda with ⟨c, hcmem, hdc⟩
    have := mem_translitChar_ascii c d hdc
    simp only [isAsciiChar, decide_eq_true_eq]
    exact this
  · rw [hdef, unidecodeL_append]
    have hpdf : unidecodeL (".pdf".toList) = ".pdf".toList := by decide
    rw [hpdf]
    exact ⟨_, rfl⟩

/-- C4 witness: concrete evaluation of the shape facts on one title. -/
theorem claim_C4_filename_shape_witness :
    hasWsRun (deriveFilename ("hello   world".toList)) = false :=
  (claim_C4_filename_shape ("hello   world".toList)).1
